import Mathlib

/-
Verification of the clinical-unit-frontend specification claims against a
shallow embedding of the repository source.

Embedding conventions:
- JavaScript strings are Lean String (or List Char where the code slices
  text character by character); JS numbers that only hold integer pixel
  counts or indices are Nat/Int; layout pixel arithmetic is modeled over
  the rationals.
- Reducers of the Redux patient slice (src/src/store/patientSlice.ts)
  become pure state-transition functions; loosely-typed JS array access is
  modeled with explicit out-of-range behavior (reading a missing index
  yields the text "undefined" under string coercion, as JS does).
- Effectful browser APIs (fetch, MSAL) are modeled by passing their
  outcomes in as explicit environment data; the functions under test
  return the value or the trace of observable calls they would perform.
-/

namespace ClinicalUnit

/-! ## Redux patient slice (src/src/store/patientSlice.ts) -/

/-- State held by the Redux patient slice: an index, the list of patient
identifiers, and the currently selected identifier
(IPatientCollection in the store module). -/
structure IPatientCollection where
  current : Nat
  patients : List String
  currentPatient : String
  deriving DecidableEq, Repr

/-- Initial state of the patient slice. -/
def initialState : IPatientCollection :=
  { current := 0, patients := [], currentPatient := "" }

/-- Reading index i of a JS array of strings: an out-of-range read yields
undefined, which string concatenation coerces to the text "undefined". -/
def jsGet (l : List String) (i : Nat) : String :=
  (l.get? i).getD "undefined"

/-- Writing index i of a JS array: an in-range write updates the slot,
writing at the length appends, and writing past the end fills the gap with
slots that read back as undefined. -/
def jsSet (l : List String) (i : Nat) (v : String) : List String :=
  if i < l.length then l.set i v
  else l ++ List.replicate (i - l.length) "undefined" ++ [v]

/-- Reducer addPatient: push the payload, point current at the new last
index, and mirror the payload into currentPatient. -/
def addPatient (s : IPatientCollection) (p : String) : IPatientCollection :=
  { current := (s.patients ++ [p]).length - 1
    patients := s.patients ++ [p]
    currentPatient := p }

/-- Reducer clearPatients: reset to the initial state. -/
def clearPatients (_s : IPatientCollection) : IPatientCollection :=
  initialState

/-- Reducer setCurrentPatient: ignore an out-of-range payload, otherwise
select the indexed patient. -/
def setCurrentPatient (s : IPatientCollection) (payload : Int) : IPatientCollection :=
  if payload < 0 ∨ (s.patients.length : Int) ≤ payload then s
  else { s with current := payload.toNat
                currentPatient := jsGet s.patients payload.toNat }

/-- Reducer addToCurrentPatient: append the payload text to the entry at
index current (JS += on a possibly-missing slot) and refresh
currentPatient from the updated slot. -/
def addToCurrentPatient (s : IPatientCollection) (t : String) : IPatientCollection :=
  let updated := jsSet s.patients s.current (jsGet s.patients s.current ++ t)
  { s with patients := updated, currentPatient := jsGet updated s.current }

/-- The four dispatchable actions of the patient slice. -/
inductive PatientAction where
  | addP (p : String)
  | clearP
  | setCurrentP (i : Int)
  | addToCurrentP (t : String)
  deriving DecidableEq, Repr

/-- Dispatch one action through the corresponding reducer. -/
def stepAction (s : IPatientCollection) : PatientAction → IPatientCollection
  | PatientAction.addP p => addPatient s p
  | PatientAction.clearP => clearPatients s
  | PatientAction.setCurrentP i => setCurrentPatient s i
  | PatientAction.addToCurrentP t => addToCurrentPatient s t

/-- Run a sequence of actions from the initial state. -/
def runActions (acts : List PatientAction) : IPatientCollection :=
  acts.foldl stepAction initialState

/-- The store invariant: on a non-empty list, current indexes the list and
currentPatient mirrors the indexed entry; on an empty list the state is the
initial one. -/
def PatientInv (s : IPatientCollection) : Prop :=
  (s.patients ≠ [] →
    s.current < s.patients.length ∧
    s.patients.get? s.current = some s.currentPatient) ∧
  (s.patients = [] → s.current = 0 ∧ s.currentPatient = "")

lemma patientInv_initial : PatientInv initialState := by
  constructor
  · intro h; exact absurd rfl h
  · intro _; exact ⟨rfl, rfl⟩

lemma jsSet_length_le (l : List String) (i : Nat) (v : String) (h : i ≤ l.length) :
    (jsSet l i v).length = max l.length (i + 1) := by
  unfold jsSet
  by_cases hi : i < l.length
  · rw [if_pos hi, List.length_set]
    omega
  · rw [if_neg hi]
    simp only [List.length_append, List.length_replicate, List.length_cons,
      List.length_nil]
    omega

lemma jsSet_get_self (l : List String) (i : Nat) (v : String) (h : i ≤ l.length) :
    (jsSet l i v).get? i = some v := by
  unfold jsSet
  by_cases hi : i < l.length
  · rw [if_pos hi, List.get?_eq_getElem?]
    simp [List.getElem?_set, hi]
  · have hie : i = l.length := by omega
    subst hie
    simp [hi]

lemma patientInv_step (s : IPatientCollection) (a : PatientAction)
    (hs : PatientInv s) : PatientInv (stepAction s a) := by
  obtain ⟨hne, hem⟩ := hs
  cases a with
  | addP p =>
    refine ⟨fun _ => ⟨?_, ?_⟩, fun h => ?_⟩
    · show (s.patients ++ [p]).length - 1 < (s.patients ++ [p]).length
      simp
    · show (s.patients ++ [p]).get? ((s.patients ++ [p]).length - 1) = some p
      have hl : (s.patients ++ [p]).length - 1 = s.patients.length := by simp
      rw [hl, List.get?_concat_length]
    · have h2 : s.patients ++ [p] = [] := h
      simp at h2
  | clearP =>
    exact patientInv_initial
  | setCurrentP i =>
    show PatientInv (setCurrentPatient s i)
    by_cases hc : i < 0 ∨ (s.patients.length : Int) ≤ i
    · unfold setCurrentPatient
      rw [if_pos hc]
      exact ⟨hne, hem⟩
    · have hlt : i.toNat < s.patients.length := by omega
      unfold setCurrentPatient
      rw [if_neg hc]
      refine ⟨fun _ => ⟨hlt, ?_⟩, fun h => ?_⟩
      · show s.patients.get? i.toNat = some (jsGet s.patients i.toNat)
        simp [jsGet, List.get?_eq_getElem?, List.getElem?_eq_getElem hlt]
      · have h2 : s.patients = [] := h
        rw [h2] at hlt
        simp at hlt
  | addToCurrentP t =>
    have hcur : s.current ≤ s.patients.length := by
      by_cases hp : s.patients = []
      · have := hem hp
        simp [hp, this.1]
      · exact Nat.le_of_lt (hne hp).1
    refine ⟨fun _ => ⟨?_, ?_⟩, fun h => ?_⟩
    · show s.current <
        (jsSet s.patients s.current (jsGet s.patients s.current ++ t)).length
      rw [jsSet_length_le _ _ _ hcur]
      omega
    · show (jsSet s.patients s.current (jsGet s.patients s.current ++ t)).get? s.current =
        some (jsGet (jsSet s.patients s.current (jsGet s.patients s.current ++ t)) s.current)
      simp only [jsGet]
      rw [jsSet_get_self _ _ _ hcur]
      rfl
    · exfalso
      have h2 : jsSet s.patients s.current (jsGet s.patients s.current ++ t) = [] := h
      have hl := jsSet_length_le s.patients s.current (jsGet s.patients s.current ++ t) hcur
      rw [h2] at hl
      simp at hl
      omega

lemma patientInv_run (acts : List PatientAction) : PatientInv (runActions acts) := by
  suffices h : ∀ (s : IPatientCollection), PatientInv s → PatientInv (acts.foldl stepAction s) by
    exact h initialState patientInv_initial
  induction acts with
  | nil => intro s hs; exact hs
  | cons a rest ih =>
    intro s hs
    exact ih (stepAction s a) (patientInv_step s a hs)

/-- C8: every state reachable from the initial state by any sequence of
addPatient, clearPatients, setCurrentPatient and addToCurrentPatient
satisfies: when the patients list is non-empty, current is a valid index
and currentPatient equals the entry at index current; and in the
empty-list states reachable without addToCurrentPatient, current is 0 and
currentPatient is the empty string. -/
theorem patientStore_invariant (acts : List PatientAction) :
    ((runActions acts).patients ≠ [] →
      (runActions acts).current < (runActions acts).patients.length ∧
      (runActions acts).patients.get? (runActions acts).current =
        some (runActions acts).currentPatient) ∧
    ((∀ a ∈ acts, ∀ t, a ≠ PatientAction.addToCurrentP t) →
      (runActions acts).patients = [] →
      (runActions acts).current = 0 ∧ (runActions acts).currentPatient = "") := by
  obtain ⟨h1, h2⟩ := patientInv_run acts
  exact ⟨h1, fun _ => h2⟩

/-- Witness instantiating C8 at concrete action sequences. -/
theorem patientStore_invariant_witness :
    (runActions [PatientAction.addP "a"]).patients.get?
        (runActions [PatientAction.addP "a"]).current =
      some (runActions [PatientAction.addP "a"]).currentPatient ∧
    (runActions [PatientAction.addP "a", PatientAction.clearP]).current = 0 := by
  constructor
  · exact ((patientStore_invariant [PatientAction.addP "a"]).1 (by decide)).2
  · exact ((patientStore_invariant [PatientAction.addP "a", PatientAction.clearP]).2
      (by intro a ha t; fin_cases ha <;> simp) (by decide)).1

/-- C9: setCurrentPatient leaves the state completely unchanged on an
out-of-range payload, and on an in-range payload selects that index and
its patient while leaving the patients list unchanged. -/
theorem setCurrentPatient_atomic (s : IPatientCollection) (i : Int) :
    ((i < 0 ∨ (s.patients.length : Int) ≤ i) → setCurrentPatient s i = s) ∧
    (0 ≤ i → i < (s.patients.length : Int) →
      (setCurrentPatient s i).current = i.toNat ∧
      s.patients.get? i.toNat = some (setCurrentPatient s i).currentPatient ∧
      (setCurrentPatient s i).patients = s.patients) := by
  constructor
  · intro h
    unfold setCurrentPatient
    rw [if_pos h]
  · intro h0 hlen
    have hni : ¬(i < 0 ∨ (s.patients.length : Int) ≤ i) := by omega
    have hlt : i.toNat < s.patients.length := by omega
    unfold setCurrentPatient
    rw [if_neg hni]
    refine ⟨rfl, ?_, rfl⟩
    show s.patients.get? i.toNat = some (jsGet s.patients i.toNat)
    simp [jsGet, List.get?_eq_getElem?, List.getElem?_eq_getElem hlt]

/-- Witness instantiating C9 at a concrete state and payloads. -/
theorem setCurrentPatient_atomic_witness :
    setCurrentPatient { current := 0, patients := ["a", "b"], currentPatient := "a" } 5 =
      { current := 0, patients := ["a", "b"], currentPatient := "a" } ∧
    (setCurrentPatient { current := 0, patients := ["a", "b"], currentPatient := "a" } 1).current = 1 := by
  constructor
  · exact (setCurrentPatient_atomic _ 5).1 (by decide)
  · exact ((setCurrentPatient_atomic _ 1).2 (by decide) (by decide)).1

/-! ## Role selection toggle (PatientSOAP component, toggleRole) -/

/-- Selected-role set update from the PatientSOAP component: toggle the
role in the previous selection; if the selection would become empty,
re-enable every available role. -/
def toggleRole (allRoles : Finset String) (prev : Finset String) (role : String) :
    Finset String :=
  let next := if role ∈ prev then prev.erase role else insert role prev
  if next = ∅ then allRoles else next

/-- C10: with a non-empty set of available roles, toggling a role adds it
when absent, removes it when present and other roles remain selected, and
restores the full set of available roles when removing it would empty the
selection. -/
theorem toggleRole_spec (allRoles prev : Finset String) (role : String)
    (hall : allRoles ≠ ∅) :
    (role ∉ prev → toggleRole allRoles prev role = insert role prev) ∧
    (role ∈ prev → prev.erase role ≠ ∅ →
      toggleRole allRoles prev role = prev.erase role) ∧
    (role ∈ prev → prev.erase role = ∅ →
      toggleRole allRoles prev role = allRoles) := by
  refine ⟨?_, ?_, ?_⟩
  · intro h
    simp only [toggleRole, if_neg h]
    rw [if_neg (Finset.insert_ne_empty role prev)]
  · intro h hne
    simp only [toggleRole, if_pos h]
    rw [if_neg hne]
  · intro h he
    simp only [toggleRole, if_pos h]
    rw [if_pos he]

/-- Witness instantiating C10 on concrete role sets. -/
theorem toggleRole_spec_witness :
    toggleRole {"physician", "nurse"} {"physician"} "physician" = {"physician", "nurse"} ∧
    toggleRole {"physician", "nurse"} {"physician"} "nurse" = {"nurse", "physician"} := by
  constructor
  · exact (toggleRole_spec {"physician", "nurse"} {"physician"} "physician"
      (by decide)).2.2 (by decide) (by decide)
  · have h := (toggleRole_spec {"physician", "nurse"} {"physician"} "nurse"
      (by decide)).1 (by decide)
    rw [h]


/-! ## Character-level string helpers

The JS string operations used by the code (trim, startsWith, includes,
Array.join) are modeled over the character list underlying a String, so
every definition evaluates inside the kernel. -/

/-- Whitespace characters removed by the JS trim used in this code base. -/
def isJsSpace (c : Char) : Bool :=
  c == ' ' || c == '\t' || c == '\n' || c == '\r'

/-- Remove whitespace from both ends of a character list. -/
def trimChars (s : List Char) : List Char :=
  ((s.dropWhile isJsSpace).reverse.dropWhile isJsSpace).reverse

/-- JS String.prototype.trim over the underlying characters. -/
def jsTrim (s : String) : String :=
  ⟨trimChars s.data⟩

/-- Does the first list start with the second one. -/
def charsStarts : List Char → List Char → Bool
  | _, [] => true
  | [], _ :: _ => false
  | c :: hs, n :: ns => c == n && charsStarts hs ns

/-- JS String.prototype.startsWith. -/
def strStartsWith (s p : String) : Bool :=
  charsStarts s.data p.data

/-- Does the first list contain the second one as a contiguous run. -/
def charsIncludes : List Char → List Char → Bool
  | [], needle => charsStarts [] needle
  | c :: hs, needle => charsStarts (c :: hs) needle || charsIncludes hs needle

/-- JS String.prototype.includes. -/
def includesStr (hay needle : String) : Bool :=
  charsIncludes hay.data needle.data

/-- JS Array.prototype.join with a separator of comma and space. -/
def joinComma : List String → String
  | [] => ""
  | [x] => x
  | x :: y :: rest => x ++ ", " ++ joinComma (y :: rest)

lemma strData_append (a b : String) : (a ++ b).data = a.data ++ b.data := rfl

lemma charsStarts_nil (s : List Char) : charsStarts s [] = true := by
  cases s <;> rfl

lemma charsStarts_append_self (n t : List Char) : charsStarts (n ++ t) n = true := by
  induction n with
  | nil => exact charsStarts_nil t
  | cons c ns ih => simp [charsStarts, ih]

lemma charsStarts_self (n : List Char) : charsStarts n n = true := by
  have h := charsStarts_append_self n []
  simpa using h

lemma charsStarts_extend (s t n : List Char) (h : charsStarts s n = true) :
    charsStarts (s ++ t) n = true := by
  induction n generalizing s with
  | nil => exact charsStarts_nil (s ++ t)
  | cons c ns ih =>
    cases s with
    | nil => simp [charsStarts] at h
    | cons a as =>
      simp only [charsStarts, Bool.and_eq_true] at h
      simp only [List.cons_append, charsStarts, Bool.and_eq_true]
      exact ⟨h.1, ih as h.2⟩

lemma charsIncludes_of_starts (s n : List Char) (h : charsStarts s n = true) :
    charsIncludes s n = true := by
  cases s with
  | nil => exact h
  | cons c hs => simp [charsIncludes, h]

lemma charsIncludes_append_left (t s n : List Char) (h : charsIncludes s n = true) :
    charsIncludes (t ++ s) n = true := by
  induction t with
  | nil => exact h
  | cons c ts ih => simp [charsIncludes, ih]

lemma charsIncludes_append_right (s t n : List Char) (h : charsIncludes s n = true) :
    charsIncludes (s ++ t) n = true := by
  induction s with
  | nil =>
    cases n with
    | nil => exact charsIncludes_of_starts _ _ (charsStarts_nil t)
    | cons c ns => simp [charsIncludes, charsStarts] at h
  | cons a as ih =>
    simp only [charsIncludes, Bool.or_eq_true] at h
    rcases h with h | h
    · have hs := charsStarts_extend (a :: as) t n h
      rw [List.cons_append] at hs
      rw [List.cons_append]
      exact charsIncludes_of_starts _ _ hs
    · rw [List.cons_append]
      simp [charsIncludes, ih h]

lemma charsIncludes_joinComma (l : List String) (name : String) (h : name ∈ l) :
    charsIncludes (joinComma l).data name.data = true := by
  induction l with
  | nil => cases h
  | cons x rest ih =>
    cases rest with
    | nil =>
      rcases List.mem_singleton.mp h with rfl
      exact charsIncludes_of_starts _ _ (charsStarts_self _)
    | cons y rest2 =>
      rcases List.mem_cons.mp h with rfl | h
      · show charsIncludes (name ++ ", " ++ joinComma (y :: rest2)).data name.data = true
        rw [strData_append, strData_append]
        apply charsIncludes_append_right
        apply charsIncludes_append_right
        exact charsIncludes_of_starts _ _ (charsStarts_self _)
      · show charsIncludes (x ++ ", " ++ joinComma (y :: rest2)).data name.data = true
        rw [strData_append]
        exact charsIncludes_append_left _ _ _ (ih h)

/-! ## Environment-variable validation (src/src/auth/authConfig.ts) -/

/-- The three Azure environment variables read by authConfig; none models a
variable that is absent from the environment. -/
structure AzureEnv where
  clientId : Option String
  authority : Option String
  redirectUri : Option String
  deriving DecidableEq, Repr

/-- A variable is missing when it is absent, empty (falsy) or blank after
trimming, mirroring the filter over Object.entries. -/
def isMissingEnv : Option String → Bool
  | none => true
  | some v => v == "" || jsTrim v == ""

/-- Names reported for missing variables, in Object.entries order; the code
upper-cases the record keys, producing CLIENTID and REDIRECTURI without an
underscore. -/
def missingNames (env : AzureEnv) : List String :=
  (if isMissingEnv env.clientId then ["VITE_AZURE_CLIENTID"] else []) ++
  (if isMissingEnv env.authority then ["VITE_AZURE_AUTHORITY"] else []) ++
  (if isMissingEnv env.redirectUri then ["VITE_AZURE_REDIRECTURI"] else [])

/-- Error text built when variables are missing. -/
def missingMsg (l : List String) : String :=
  "Missing required Azure AD configuration: " ++ joinComma l ++
    ". Please check your .env file."

/-- Error text built when the redirect URI has the wrong scheme. -/
def invalidUriMsg (uri : String) : String :=
  "Invalid redirect URI format: " ++ uri ++ ". Must start with http:// or https://"

/-- validateRequiredEnvVars: throw when any variable is missing, then throw
when the redirect URI does not start with http:// or https://, otherwise
return the configured values unchanged. -/
def validateRequiredEnvVars (env : AzureEnv) : Except String AzureEnv :=
  if missingNames env ≠ [] then
    Except.error (missingMsg (missingNames env))
  else if !strStartsWith (env.redirectUri.getD "") "http://" &&
      !strStartsWith (env.redirectUri.getD "") "https://" then
    Except.error (invalidUriMsg (env.redirectUri.getD ""))
  else
    Except.ok env

lemma includesStr_missingMsg (l : List String) (name : String) (h : name ∈ l) :
    includesStr (missingMsg l) name = true := by
  unfold includesStr missingMsg
  rw [strData_append, strData_append]
  apply charsIncludes_append_right
  apply charsIncludes_append_left
  exact charsIncludes_joinComma l name h

/-- C4: authConfig validation succeeds (returning the three values
unchanged) exactly when no variable is absent or blank after trimming and
the redirect URI starts with http:// or https://; when variables are
missing it throws an error whose message lists a name for each missing
variable, and when only the redirect URI scheme is wrong it throws the
invalid-format error. -/
theorem validateRequiredEnvVars_spec (env : AzureEnv) :
    (validateRequiredEnvVars env = Except.ok env ↔
      (isMissingEnv env.clientId = false ∧ isMissingEnv env.authority = false ∧
        isMissingEnv env.redirectUri = false ∧
        (strStartsWith (env.redirectUri.getD "") "http://" = true ∨
          strStartsWith (env.redirectUri.getD "") "https://" = true))) ∧
    (missingNames env ≠ [] →
      validateRequiredEnvVars env = Except.error (missingMsg (missingNames env)) ∧
      ∀ name ∈ missingNames env,
        includesStr (missingMsg (missingNames env)) name = true) ∧
    (missingNames env = [] →
      strStartsWith (env.redirectUri.getD "") "http://" = false →
      strStartsWith (env.redirectUri.getD "") "https://" = false →
      validateRequiredEnvVars env =
        Except.error (invalidUriMsg (env.redirectUri.getD ""))) := by
  refine ⟨?_, ?_, ?_⟩
  · constructor
    · intro h
      unfold validateRequiredEnvVars at h
      by_cases hm : missingNames env ≠ []
      · rw [if_pos hm] at h
        exact absurd h (by simp)
      · rw [if_neg hm] at h
        push_neg at hm
        have hparts : isMissingEnv env.clientId = false ∧
            isMissingEnv env.authority = false ∧
            isMissingEnv env.redirectUri = false := by
          unfold missingNames at hm
          by_cases h1 : isMissingEnv env.clientId <;>
            by_cases h2 : isMissingEnv env.authority <;>
              by_cases h3 : isMissingEnv env.redirectUri <;>
                simp [h1, h2, h3] at hm ⊢
        by_cases hs : (!strStartsWith (env.redirectUri.getD "") "http://" &&
            !strStartsWith (env.redirectUri.getD "") "https://") = true
        · rw [if_pos hs] at h
          exact absurd h (by simp)
        · refine ⟨hparts.1, hparts.2.1, hparts.2.2, ?_⟩
          cases hb1 : strStartsWith (env.redirectUri.getD "") "http://" with
          | true => exact Or.inl rfl
          | false =>
            cases hb2 : strStartsWith (env.redirectUri.getD "") "https://" with
            | true => exact Or.inr rfl
            | false => exact absurd (by rw [hb1, hb2]; rfl) hs
    · rintro ⟨h1, h2, h3, h4⟩
      have hm : missingNames env = [] := by
        unfold missingNames
        simp [h1, h2, h3]
      unfold validateRequiredEnvVars
      rw [if_neg (by simp [hm])]
      have hs : ¬(!strStartsWith (env.redirectUri.getD "") "http://" &&
          !strStartsWith (env.redirectUri.getD "") "https://") = true := by
        rcases h4 with h4 | h4 <;> simp [h4]
      rw [if_neg hs]
  · intro hm
    refine ⟨?_, ?_⟩
    · unfold validateRequiredEnvVars
      rw [if_pos hm]
    · intro name hname
      exact includesStr_missingMsg (missingNames env) name hname
  · intro hm hs1 hs2
    unfold validateRequiredEnvVars
    rw [if_neg (by simp [hm]), if_pos (by simp [hs1, hs2])]

/-- Concrete environment with the client ID missing. -/
def azureEnvMissing : AzureEnv :=
  { clientId := none, authority := some "a", redirectUri := some "http://x" }

/-- Concrete fully configured environment. -/
def azureEnvOk : AzureEnv :=
  { clientId := some "c", authority := some "a", redirectUri := some "http://x" }

/-- Concrete environment whose redirect URI has no scheme. -/
def azureEnvBadUri : AzureEnv :=
  { clientId := some "c", authority := some "a", redirectUri := some "x" }

/-- Witness instantiating C4 at concrete environments. -/
theorem validateRequiredEnvVars_spec_witness :
    validateRequiredEnvVars azureEnvMissing =
      Except.error (missingMsg ["VITE_AZURE_CLIENTID"]) ∧
    validateRequiredEnvVars azureEnvOk = Except.ok azureEnvOk ∧
    validateRequiredEnvVars azureEnvBadUri = Except.error (invalidUriMsg "x") := by
  refine ⟨?_, ?_, ?_⟩
  · have h := ((validateRequiredEnvVars_spec azureEnvMissing).2.1 (by decide)).1
    rw [show missingNames azureEnvMissing = ["VITE_AZURE_CLIENTID"] from rfl] at h
    exact h
  · exact (validateRequiredEnvVars_spec azureEnvOk).1.mpr
      ⟨by decide, by decide, by decide, Or.inl (by decide)⟩
  · exact (validateRequiredEnvVars_spec azureEnvBadUri).2.2
      (by decide) (by decide) (by decide)

/-! ## Token acquisition (store module, getAuthToken) -/

/-- Outcome of one MSAL token-acquisition call. -/
inductive TokenAttempt where
  | success (token : String)
  | failure
  deriving DecidableEq, Repr

/-- Browser/MSAL environment seen by getAuthToken: whether the MSAL
instance is installed on window, how many accounts are signed in, and the
outcomes the silent and popup acquisition calls would produce. -/
structure AuthTokenEnv where
  msalPresent : Bool
  accountCount : Nat
  silentResult : TokenAttempt
  popupResult : TokenAttempt
  deriving DecidableEq, Repr

/-- getAuthToken from the store module: null without an MSAL instance or an
account; otherwise the silent token, falling back to popup acquisition
inside the catch block when silent acquisition throws, and null when the
popup also throws. The function catches every exception, so it is total. -/
def getAuthToken (env : AuthTokenEnv) : Option String :=
  if !env.msalPresent then none
  else if env.accountCount = 0 then none
  else
    match env.silentResult with
    | TokenAttempt.success t => some t
    | TokenAttempt.failure =>
      if env.msalPresent then
        match env.popupResult with
        | TokenAttempt.success t => some t
        | TokenAttempt.failure => none
      else none

/-- C5: getAuthToken returns null when the MSAL instance is missing or no
account exists; with an account it returns the silent token, falls back to
the popup token when silent acquisition throws, and returns null only when
the MSAL instance is missing, no account exists, or both acquisitions
fail; it never throws (it is a total function into Option). -/
theorem getAuthToken_spec (env : AuthTokenEnv) :
    (env.msalPresent = false → getAuthToken env = none) ∧
    (env.accountCount = 0 → getAuthToken env = none) ∧
    (∀ t, env.msalPresent = true → env.accountCount ≠ 0 →
      env.silentResult = TokenAttempt.success t → getAuthToken env = some t) ∧
    (∀ t, env.msalPresent = true → env.accountCount ≠ 0 →
      env.silentResult = TokenAttempt.failure →
      env.popupResult = TokenAttempt.success t → getAuthToken env = some t) ∧
    (getAuthToken env = none →
      env.msalPresent = false ∨ env.accountCount = 0 ∨
        (env.silentResult = TokenAttempt.failure ∧
          env.popupResult = TokenAttempt.failure)) := by
  refine ⟨?_, ?_, ?_, ?_, ?_⟩
  · intro h
    simp [getAuthToken, h]
  · intro h
    unfold getAuthToken
    by_cases hm : env.msalPresent <;> simp [hm, h]
  · intro t hm ha hs
    simp [getAuthToken, hm, ha, hs]
  · intro t hm ha hs hp
    simp [getAuthToken, hm, ha, hs, hp]
  · intro h
    by_cases hm : env.msalPresent
    · by_cases ha : env.accountCount = 0
      · exact Or.inr (Or.inl ha)
      · refine Or.inr (Or.inr ?_)
        cases hsil : env.silentResult with
        | success t => simp [getAuthToken, hm, ha, hsil] at h
        | failure =>
          cases hpop : env.popupResult with
          | success t => simp [getAuthToken, hm, ha, hsil, hpop] at h
          | failure => exact ⟨rfl, rfl⟩
    · exact Or.inl (by simpa using hm)

/-- Concrete environment with no MSAL instance. -/
def authEnvNoMsal : AuthTokenEnv :=
  { msalPresent := false, accountCount := 1,
    silentResult := TokenAttempt.success "t", popupResult := TokenAttempt.failure }

/-- Concrete environment where silent acquisition throws and the popup
succeeds. -/
def authEnvPopup : AuthTokenEnv :=
  { msalPresent := true, accountCount := 1,
    silentResult := TokenAttempt.failure, popupResult := TokenAttempt.success "p" }

/-- Witness instantiating C5 at concrete environments. -/
theorem getAuthToken_spec_witness :
    getAuthToken authEnvNoMsal = none ∧ getAuthToken authEnvPopup = some "p" := by
  constructor
  · exact (getAuthToken_spec authEnvNoMsal).1 rfl
  · exact (getAuthToken_spec authEnvPopup).2.2.2.1 "p" rfl (by decide) rfl rfl

/-! ## Streaming endpoint error handling (store module, callApi) and
patient search error handling (src/src/components/patient.tsx) -/

/-- Observable actions the streaming callApi performs: issuing a fetch
(with the status the backend answers), opening the MSAL login popup,
reporting an error message, and reading/processing the response body. -/
inductive ApiEvent where
  | fetchReq (status : Nat)
  | loginPopup
  | errorMsg (s : String)
  | processBody
  deriving DecidableEq, Repr

/-- Error text reported when re-authentication fails. -/
def authFailedMsg : String :=
  "Authentication failed. Please refresh the page and try again."

/-- Error text reported by the outer catch of callApi. -/
def apiFailedMsg : String :=
  "API call failed. Please check your connection and try again."

/-- Trace of the recursive callApi from startWritingTask, driven by the
statuses successive fetches would return (an empty list models the fetch
itself throwing), whether window.msalInstance is set, whether loginPopup
succeeds, and whether getAuthToken afterwards yields a token. On a 401
with an MSAL instance it re-authenticates and, once a new token exists,
re-issues the request recursively; every other response has its body
processed; a login failure or a thrown fetch only reports an error. -/
def callApi (msalPresent loginOk tokenOk : Bool) : List Nat → List ApiEvent
  | [] => [ApiEvent.errorMsg apiFailedMsg]
  | s :: rest =>
    if s = 401 then
      if msalPresent then
        if loginOk then
          if tokenOk then
            ApiEvent.fetchReq s :: ApiEvent.loginPopup ::
              callApi msalPresent loginOk tokenOk rest
          else [ApiEvent.fetchReq s, ApiEvent.loginPopup, ApiEvent.processBody]
        else [ApiEvent.fetchReq s, ApiEvent.loginPopup, ApiEvent.errorMsg authFailedMsg]
      else [ApiEvent.fetchReq s, ApiEvent.processBody]
    else [ApiEvent.fetchReq s, ApiEvent.processBody]

/-- Is the event a fetch request. -/
def isFetchReq : ApiEvent → Bool
  | ApiEvent.fetchReq _ => true
  | _ => false

/-- Outcome of the fetchPatient call awaited by handleSearch. -/
inductive FetchOutcome where
  | ok (patient : String)
  | err (msg : String)
  deriving DecidableEq, Repr

/-- Component state produced by one run of handleSearch. -/
structure SearchState where
  patientData : Option String
  errorText : String
  showSearch : Bool
  deriving DecidableEq, Repr

/-- handleSearch from the patient component: reject a blank MRN, store the
patient on success, and on failure only set an error message chosen by
matching the thrown message; it performs no retry. -/
def handleSearch (searchId : String) (outcome : FetchOutcome) : SearchState :=
  if jsTrim searchId == "" then
    { patientData := none, errorText := "Please enter an MRN.", showSearch := true }
  else
    match outcome with
    | FetchOutcome.ok p =>
      { patientData := some p, errorText := "", showSearch := false }
    | FetchOutcome.err m =>
      { patientData := none
        errorText :=
          if includesStr m "Authentication" then
            "Authentication failed. Please refresh the page and log in again."
          else if includesStr m "401" then
            "Unauthorized access. Please check your permissions."
          else
            "Patient not found or error fetching patient data."
        showSearch := true }

/-- C3 counterexample: on an HTTP 401 with an MSAL instance present and a
successful re-login, callApi opens the login popup (re-authenticates) and
issues a second fetch (re-issues the request) without reporting any error
message, contradicting the claim that a failed request only yields an
error message. -/
theorem callApi_retries_on_401 :
    callApi true true true [401, 200] =
      [ApiEvent.fetchReq 401, ApiEvent.loginPopup, ApiEvent.fetchReq 200,
        ApiEvent.processBody] ∧
    ApiEvent.loginPopup ∈ callApi true true true [401, 200] ∧
    ((callApi true true true [401, 200]).filter isFetchReq).length = 2 ∧
    (callApi true true true [401, 200]).filter
        (fun e => match e with | ApiEvent.errorMsg _ => true | _ => false) = [] := by
  refine ⟨rfl, ?_, rfl, rfl⟩
  rw [show callApi true true true [401, 200] =
    [ApiEvent.fetchReq 401, ApiEvent.loginPopup, ApiEvent.fetchReq 200,
      ApiEvent.processBody] from rfl]
  simp

/-- C3 amended: every failed request other than a 401 handled with a
present MSAL instance produces only an error report or a processed
response without any retry or popup, and handleSearch reacts to a failed
fetchPatient only by recording an error message; but on a 401 with an MSAL
instance, successful re-login and a fresh token, callApi re-authenticates
via loginPopup and re-issues the request. -/
theorem errorHandling_behavior (msalPresent loginOk tokenOk : Bool) (s : Nat)
    (statuses : List Nat) (searchId : String) (m : String) :
    (s ≠ 401 → callApi msalPresent loginOk tokenOk (s :: statuses) =
      [ApiEvent.fetchReq s, ApiEvent.processBody]) ∧
    (callApi msalPresent loginOk tokenOk [] = [ApiEvent.errorMsg apiFailedMsg]) ∧
    (s = 401 → msalPresent = false →
      callApi msalPresent loginOk tokenOk (s :: statuses) =
        [ApiEvent.fetchReq s, ApiEvent.processBody]) ∧
    (s = 401 → msalPresent = true → loginOk = false →
      callApi msalPresent loginOk tokenOk (s :: statuses) =
        [ApiEvent.fetchReq s, ApiEvent.loginPopup, ApiEvent.errorMsg authFailedMsg]) ∧
    (s = 401 → msalPresent = true → loginOk = true → tokenOk = true →
      callApi msalPresent loginOk tokenOk (s :: statuses) =
        ApiEvent.fetchReq s :: ApiEvent.loginPopup ::
          callApi msalPresent loginOk tokenOk statuses) ∧
    (jsTrim searchId == "" → handleSearch searchId (FetchOutcome.err m) =
      { patientData := none, errorText := "Please enter an MRN.", showSearch := true })
      ∧
    ((jsTrim searchId == "") = false →
      (handleSearch searchId (FetchOutcome.err m)).patientData = none ∧
      (handleSearch searchId (FetchOutcome.err m)).showSearch = true ∧
      (handleSearch searchId (FetchOutcome.err m)).errorText ≠ "") := by
  refine ⟨?_, rfl, ?_, ?_, ?_, ?_, ?_⟩
  · intro hs
    unfold callApi
    rw [if_neg hs]
  · intro hs hm
    subst hs hm
    rfl
  · intro hs hm hl
    subst hs hm hl
    rfl
  · intro hs hm hl ht
    subst hs hm hl ht
    rfl
  · intro hb
    unfold handleSearch
    rw [if_pos hb]
  · intro hb
    unfold handleSearch
    rw [if_neg (by simp [hb])]
    refine ⟨rfl, rfl, ?_⟩
    show (if includesStr m "Authentication" then
            "Authentication failed. Please refresh the page and log in again."
          else if includesStr m "401" then
            "Unauthorized access. Please check your permissions."
          else
            "Patient not found or error fetching patient data.") ≠ ""
    by_cases h1 : includesStr m "Authentication" = true
    · rw [if_pos h1]
      decide
    · rw [if_neg (by simpa using h1)]
      by_cases h2 : includesStr m "401" = true
      · rw [if_pos h2]
        decide
      · rw [if_neg (by simpa using h2)]
        decide

/-- Witness instantiating the amended C3 at concrete inputs. -/
theorem errorHandling_behavior_witness :
    callApi true true true [500] = [ApiEvent.fetchReq 500, ApiEvent.processBody] ∧
    (handleSearch "mrn1" (FetchOutcome.err "boom")).errorText ≠ "" := by
  constructor
  · exact (errorHandling_behavior true true true 500 [] "mrn1" "boom").1 (by decide)
  · exact ((errorHandling_behavior true true true 500 [] "mrn1" "boom").2.2.2.2.2.2
      (by decide)).2.2

/-! ## Scroll-spy tab synchronization (PatientSOAP handleScroll) -/

/-- The four SOAP tabs, in the order the component iterates over them. -/
inductive SoapTab where
  | subjective
  | objective
  | assessment
  | plan
  deriving DecidableEq, Repr

/-- Iteration order of the tabs array in the component. -/
def tabOrder : List SoapTab :=
  [SoapTab.subjective, SoapTab.objective, SoapTab.assessment, SoapTab.plan]

/-- Bounding rectangle of a section element relative to the viewport; JS
pixel values are modeled as rationals. -/
structure JsRect where
  top : ℚ
  height : ℚ
  deriving DecidableEq

/-- Geometry of the scroll container at the moment of a scroll event. -/
structure ScrollMetrics where
  scrollTop : ℚ
  clientHeight : ℚ
  scrollHeight : ℚ
  containerTop : ℚ
  deriving DecidableEq

/-- Visible fraction of a section, as computed in handleScroll: the height
of the intersection of the element with the container viewport divided by
the element height. Division by a zero height yields 0 in this model; in
JS it yields NaN, and both values lose every comparison against a
non-negative running maximum, so the scan below treats them identically. -/
def visibilityRatio (c : ScrollMetrics) (r : JsRect) : ℚ :=
  let elementTop := r.top - c.containerTop
  let visibleTop := max 0 (-elementTop)
  let visibleBottom := min r.height (c.clientHeight - elementTop)
  let visibleHeight := max 0 (visibleBottom - visibleTop)
  visibleHeight / r.height

/-- One step of the forEach over tabs: keep the accumulator unless the
section element exists and its visibility ratio strictly exceeds the
running maximum. -/
def scanStep (c : ScrollMetrics) (secs : SoapTab → Option JsRect)
    (acc : SoapTab × ℚ) (t : SoapTab) : SoapTab × ℚ :=
  match secs t with
  | none => acc
  | some r =>
    if acc.2 < visibilityRatio c r then (t, visibilityRatio c r) else acc

/-- The forEach over the tabs array, started from (subjective, 0). -/
def scanTabs (c : ScrollMetrics) (secs : SoapTab → Option JsRect) : SoapTab × ℚ :=
  tabOrder.foldl (scanStep c secs) (SoapTab.subjective, 0)

/-- handleScroll from the PatientSOAP components: within 10 pixels of the
bottom the plan tab becomes active; otherwise the tab with the greatest
visible fraction wins, the scan defaulting to subjective. -/
def handleScroll (c : ScrollMetrics) (secs : SoapTab → Option JsRect) : SoapTab :=
  if c.scrollHeight - 10 ≤ c.scrollTop + c.clientHeight then SoapTab.plan
  else (scanTabs c secs).1

lemma scanStep_snd_le (c : ScrollMetrics) (secs : SoapTab → Option JsRect)
    (acc : SoapTab × ℚ) (t : SoapTab) : acc.2 ≤ (scanStep c secs acc t).2 := by
  unfold scanStep
  cases secs t with
  | none => exact le_refl _
  | some r =>
    dsimp only
    by_cases h : acc.2 < visibilityRatio c r
    · rw [if_pos h]
      exact le_of_lt h
    · rw [if_neg h]

lemma scanFold_snd_le (c : ScrollMetrics) (secs : SoapTab → Option JsRect)
    (l : List SoapTab) (acc : SoapTab × ℚ) :
    acc.2 ≤ (l.foldl (scanStep c secs) acc).2 := by
  induction l generalizing acc with
  | nil => exact le_refl _
  | cons t rest ih =>
    exact le_trans (scanStep_snd_le c secs acc t) (ih (scanStep c secs acc t))

lemma scanFold_ge_ratio (c : ScrollMetrics) (secs : SoapTab → Option JsRect)
    (l : List SoapTab) (acc : SoapTab × ℚ) (t : SoapTab) (r : JsRect)
    (ht : t ∈ l) (hr : secs t = some r) :
    visibilityRatio c r ≤ (l.foldl (scanStep c secs) acc).2 := by
  induction l generalizing acc with
  | nil => cases ht
  | cons a rest ih =>
    rcases List.mem_cons.mp ht with rfl | ht2
    · have hstep : visibilityRatio c r ≤ (scanStep c secs acc t).2 := by
        unfold scanStep
        rw [hr]
        dsimp only
        by_cases h : acc.2 < visibilityRatio c r
        · rw [if_pos h]
        · rw [if_neg h]
          exact le_of_not_lt h
      exact le_trans hstep (scanFold_snd_le c secs rest (scanStep c secs acc t))
    · exact ih (scanStep c secs acc a) ht2

lemma scanFold_witness (c : ScrollMetrics) (secs : SoapTab → Option JsRect)
    (l : List SoapTab) (acc : SoapTab × ℚ) :
    l.foldl (scanStep c secs) acc = acc ∨
      ∃ t ∈ l, ∃ r, secs t = some r ∧
        l.foldl (scanStep c secs) acc = (t, visibilityRatio c r) := by
  induction l generalizing acc with
  | nil => exact Or.inl rfl
  | cons a rest ih =>
    have hstep : scanStep c secs acc a = acc ∨
        ∃ r, secs a = some r ∧ scanStep c secs acc a = (a, visibilityRatio c r) := by
      cases ha : secs a with
      | none =>
        refine Or.inl ?_
        unfold scanStep
        rw [ha]
      | some r =>
        by_cases h : acc.2 < visibilityRatio c r
        · refine Or.inr ⟨r, rfl, ?_⟩
          unfold scanStep
          rw [ha]
          dsimp only
          rw [if_pos h]
        · refine Or.inl ?_
          unfold scanStep
          rw [ha]
          dsimp only
          rw [if_neg h]
    rcases ih (scanStep c secs acc a) with hrec | ⟨t, ht, r, hr, heq⟩
    · rcases hstep with h1 | ⟨r, hr, h1⟩
      · refine Or.inl ?_
        show List.foldl (scanStep c secs) (scanStep c secs acc a) rest = acc
        rw [h1] at hrec ⊢
        exact hrec
      · refine Or.inr ⟨a, List.mem_cons_self a rest, r, hr, ?_⟩
        show List.foldl (scanStep c secs) (scanStep c secs acc a) rest =
          (a, visibilityRatio c r)
        rw [hrec]
        exact h1
    · refine Or.inr ⟨t, List.mem_cons_of_mem a ht, r, hr, ?_⟩
      show List.foldl (scanStep c secs) (scanStep c secs acc a) rest =
        (t, visibilityRatio c r)
      exact heq

lemma mem_tabOrder (t : SoapTab) : t ∈ tabOrder := by
  cases t <;> simp [tabOrder]

/-- C6: on a scroll event, the active tab becomes plan whenever the scroll
position is within 10 pixels of the bottom; otherwise the scan result
dominates the visible fraction of every measurable section and is either a
section realizing that maximal fraction or the subjective default (with
running maximum 0), and when no section is measurable the active tab
defaults to subjective. -/
theorem handleScroll_spec (c : ScrollMetrics) (secs : SoapTab → Option JsRect) :
    (c.scrollHeight - 10 ≤ c.scrollTop + c.clientHeight →
      handleScroll c secs = SoapTab.plan) ∧
    (c.scrollTop + c.clientHeight < c.scrollHeight - 10 →
      (∀ t r, secs t = some r → visibilityRatio c r ≤ (scanTabs c secs).2) ∧
      ((∃ r, secs (handleScroll c secs) = some r ∧
          visibilityRatio c r = (scanTabs c secs).2) ∨
        (handleScroll c secs = SoapTab.subjective ∧ (scanTabs c secs).2 = 0))) ∧
    ((∀ t, secs t = none) → c.scrollTop + c.clientHeight < c.scrollHeight - 10 →
      handleScroll c secs = SoapTab.subjective) := by
  refine ⟨?_, ?_, ?_⟩
  · intro h
    unfold handleScroll
    rw [if_pos h]
  · intro h
    have hni : ¬(c.scrollHeight - 10 ≤ c.scrollTop + c.clientHeight) := not_le.mpr h
    constructor
    · intro t r hr
      exact scanFold_ge_ratio c secs tabOrder (SoapTab.subjective, 0) t r
        (mem_tabOrder t) hr
    · unfold handleScroll
      rw [if_neg hni]
      rcases scanFold_witness c secs tabOrder (SoapTab.subjective, 0) with heq | ⟨t, _, r, hr, heq⟩
      · right
        unfold scanTabs
        rw [heq]
        exact ⟨rfl, rfl⟩
      · left
        refine ⟨r, ?_, ?_⟩
        · unfold scanTabs
          rw [heq]
          exact hr
        · unfold scanTabs
          rw [heq]
  · intro hnone h
    have hni : ¬(c.scrollHeight - 10 ≤ c.scrollTop + c.clientHeight) := not_le.mpr h
    unfold handleScroll
    rw [if_neg hni]
    have hconst : ∀ (l : List SoapTab) (acc : SoapTab × ℚ),
        l.foldl (scanStep c secs) acc = acc := by
      intro l
      induction l with
      | nil => intro acc; rfl
      | cons a rest ih =>
        intro acc
        rw [List.foldl_cons, show scanStep c secs acc a = acc by
          unfold scanStep; rw [hnone a]]
        exact ih acc
    unfold scanTabs
    rw [hconst tabOrder (SoapTab.subjective, 0)]

/-- Concrete geometry for the witness: container of height 100 scrolled to
the bottom, and a layout where the assessment section fills the viewport. -/
def nearBottomMetrics : ScrollMetrics :=
  { scrollTop := 100, clientHeight := 100, scrollHeight := 200, containerTop := 0 }

/-- Concrete geometry away from the bottom. -/
def midScrollMetrics : ScrollMetrics :=
  { scrollTop := 0, clientHeight := 100, scrollHeight := 400, containerTop := 0 }

/-- Concrete section layout: only the objective section is measurable and
it sits fully inside the viewport. -/
def objectiveOnlySections : SoapTab → Option JsRect
  | SoapTab.objective => some { top := 10, height := 50 }
  | _ => none

/-- Witness instantiating C6: at the bottom the plan tab wins, and away
from the bottom with no measurable section the subjective tab wins. -/
theorem handleScroll_spec_witness :
    handleScroll nearBottomMetrics objectiveOnlySections = SoapTab.plan ∧
    handleScroll midScrollMetrics (fun _ => none) = SoapTab.subjective := by
  constructor
  · exact (handleScroll_spec nearBottomMetrics objectiveOnlySections).1 (by norm_num [nearBottomMetrics])
  · exact (handleScroll_spec midScrollMetrics (fun _ => none)).2.2 (fun _ => rfl)
      (by norm_num [midScrollMetrics])

/-! ## Role-filterable section rendering (PatientSOAP renderSectionContent) -/

/-- A single SOAP entry, possibly carrying a role, as in the PatientSOAP
component; absent fields are none. -/
structure SOAPEntry where
  subjective : Option String
  objective : Option String
  assessment : Option String
  plan : Option String
  role : Option String
  deriving DecidableEq, Repr

/-- JS truthiness of an optional string field: present and non-empty. -/
def truthyStr : Option String → Bool
  | none => false
  | some s => !(s == "")

/-- Field selection e[sectionKey] for a SOAP section key. -/
def getSection (e : SOAPEntry) : SoapTab → Option String
  | SoapTab.subjective => e.subjective
  | SoapTab.objective => e.objective
  | SoapTab.assessment => e.assessment
  | SoapTab.plan => e.plan

/-- JS Set insertion: append unless already present. -/
def addRole (acc : List String) (r : String) : List String :=
  if acc.contains r then acc else acc ++ [r]

/-- Insert into a sorted list of strings. -/
def insertSorted (x : String) : List String → List String
  | [] => [x]
  | y :: ys => if x ≤ y then x :: y :: ys else y :: insertSorted x ys

/-- Lexicographic sort standing in for JS Array.prototype.sort on role
names. -/
def sortRoles : List String → List String
  | [] => []
  | x :: xs => insertSorted x (sortRoles xs)

/-- allRoles of the component: the set of truthy roles of the current
round, sorted. -/
def allRolesOf (entries : List SOAPEntry) : List String :=
  sortRoles (entries.foldl (fun acc e =>
    match e.role with
    | some r => if r == "" then acc else addRole acc r
    | none => acc) [])

/-- The role filter of renderSectionContent: an entry passes when its role
is falsy (absent or empty) or selected. The selected-role JS Set is
modeled by the list of its members. -/
def passesRoleFilter (selectedRoles : List String) (e : SOAPEntry) : Bool :=
  match e.role with
  | some r => if r == "" then true else selectedRoles.contains r
  | none => true

/-- The entries variable of renderSectionContent: role-filtered only when
some role exists and the selection is non-empty. -/
def roleFilteredEntries (currentEntries : List SOAPEntry)
    (selectedRoles : List String) : List SOAPEntry :=
  if !(allRolesOf currentEntries).isEmpty && !selectedRoles.isEmpty then
    currentEntries.filter (passesRoleFilter selectedRoles)
  else currentEntries

/-- What one call of renderSectionContent displays: whether the No data
available message is shown, and the entries whose content block is
rendered (entries with falsy content render null and are dropped). -/
structure SectionView where
  noDataShown : Bool
  rendered : List SOAPEntry
  deriving DecidableEq, Repr

/-- renderSectionContent from the PatientSOAP component. -/
def renderSectionContent (currentEntries : List SOAPEntry)
    (selectedRoles : List String) (key : SoapTab) : SectionView :=
  if (roleFilteredEntries currentEntries selectedRoles).isEmpty then
    { noDataShown := true, rendered := [] }
  else
    { noDataShown := false
      rendered := (roleFilteredEntries currentEntries selectedRoles).filter
        (fun e => truthyStr (getSection e key)) }

lemma listIsEmpty_iff (l : List α) : l.isEmpty = true ↔ l = [] := by
  cases l <;> simp

lemma filter_filter_bool (p q : α → Bool) (l : List α) :
    (l.filter p).filter q = l.filter (fun a => p a && q a) := by
  induction l with
  | nil => rfl
  | cons a as ih =>
    by_cases hp : p a = true
    · by_cases hq : q a = true <;> simp [List.filter_cons, hp, hq, ih]
    · simp only [Bool.not_eq_true] at hp
      simp [List.filter_cons, hp, ih]

/-- An entry whose only content lives in the plan section, carrying the
physician role. -/
def cexEntry : SOAPEntry :=
  { subjective := none, objective := none, assessment := none,
    plan := some "p", role := some "physician" }

/-- C7 counterexample: with the physician role selected and a single
physician entry that has no subjective content, no entry passes the
combined role-and-content filter for the subjective section (nothing is
rendered), yet the No data available message is not shown, because the
code only shows it when the role filter alone leaves no entries. -/
theorem renderSectionContent_counterexample :
    (renderSectionContent [cexEntry] ["physician"] SoapTab.subjective).rendered = [] ∧
    (renderSectionContent [cexEntry] ["physician"]
      SoapTab.subjective).noDataShown = false := by
  decide

/-- C7 amended: when the entries carry at least one role and the selection
is non-empty, the rendered entries are exactly those passing the role
filter whose content for the section is truthy, in their original order;
the No data available message is shown exactly when the role filter alone
(not the combined filter) leaves no entries. -/
theorem renderSectionContent_spec (entries : List SOAPEntry)
    (selectedRoles : List String) (key : SoapTab)
    (hroles : allRolesOf entries ≠ []) (hsel : selectedRoles ≠ []) :
    (renderSectionContent entries selectedRoles key).rendered =
      entries.filter (fun e => passesRoleFilter selectedRoles e &&
        truthyStr (getSection e key)) ∧
    ((renderSectionContent entries selectedRoles key).noDataShown = true ↔
      entries.filter (passesRoleFilter selectedRoles) = []) := by
  have hfe : roleFilteredEntries entries selectedRoles =
      entries.filter (passesRoleFilter selectedRoles) := by
    unfold roleFilteredEntries
    rw [if_pos ?_]
    cases hA : (allRolesOf entries).isEmpty
    · cases hS : selectedRoles.isEmpty
      · rfl
      · exact absurd ((listIsEmpty_iff selectedRoles).mp hS) hsel
    · exact absurd ((listIsEmpty_iff (allRolesOf entries)).mp hA) hroles
  have hcomb := filter_filter_bool (passesRoleFilter selectedRoles)
    (fun e => truthyStr (getSection e key)) entries
  unfold renderSectionContent
  rw [hfe]
  by_cases he : (entries.filter (passesRoleFilter selectedRoles)).isEmpty = true
  · rw [if_pos he]
    have hnil : entries.filter (passesRoleFilter selectedRoles) = [] :=
      (listIsEmpty_iff _).mp he
    constructor
    · rw [← hcomb, hnil]
      rfl
    · simp [hnil]
  · rw [if_neg he]
    constructor
    · exact hcomb
    · constructor
      · intro hfalse
        exact absurd hfalse (by simp)
      · intro hnil
        exact absurd ((listIsEmpty_iff _).mpr hnil) he

/-- Witness instantiating the amended C7 on a concrete round. -/
theorem renderSectionContent_spec_witness :
    (renderSectionContent [cexEntry] ["physician"] SoapTab.plan).rendered =
      [cexEntry] ∧
    (renderSectionContent [cexEntry] ["physician"] SoapTab.plan).noDataShown
      = false := by
  have h := renderSectionContent_spec [cexEntry] ["physician"] SoapTab.plan
    (by decide) (by decide)
  constructor
  · rw [h.1]
    decide
  · cases hb : (renderSectionContent [cexEntry] ["physician"]
      SoapTab.plan).noDataShown
    · rfl
    · exact absurd (by decide : ¬([cexEntry].filter
        (passesRoleFilter ["physician"]) = [])) (fun hc => hc (h.2.mp hb))

/-! ## Round normalization (PatientSOAP normalizedRounds) -/

/-- Loosely-typed JS values that can appear in the rounds input: undefined,
null, strings, nested objects (finite association lists of own enumerable
keys) and arrays. -/
inductive JVal where
  | jundef : JVal
  | jnull : JVal
  | jstr : String → JVal
  | jobj : List (String × JVal) → JVal
  | jarr : List JVal → JVal

/-- JS truthiness of a value of this model. -/
def truthy : JVal → Bool
  | JVal.jundef => false
  | JVal.jnull => false
  | JVal.jstr s => !(s == "")
  | JVal.jobj _ => true
  | JVal.jarr _ => true

/-- Does the key match the regular expression of one or more digits. -/
def isDigitKey (s : String) : Bool :=
  !(s == "") && s.data.all Char.isDigit

/-- Property lookup on an object modeled as an association list. -/
def objLookup (o : List (String × JVal)) (k : String) : Option JVal :=
  (o.find? (fun p => p.1 == k)).map Prod.snd

/-- Is the property present with a value other than undefined. -/
def definedAt (o : List (String × JVal)) (k : String) : Bool :=
  match objLookup o k with
  | some JVal.jundef => false
  | some _ => true
  | none => false

/-- The four legacy SOAP field names probed by the component. -/
def soapKeys : List String :=
  ["subjective", "objective", "assessment", "plan"]

/-- Legacy-single-round test of normalizedRounds: some SOAP field is
defined and no key is all digits. -/
def isSingle (o : List (String × JVal)) : Bool :=
  soapKeys.any (fun k => definedAt o k) && !(o.any (fun p => isDigitKey p.1))

/-- One step of the forEach over Object.entries: skip falsy values, keep
arrays as they are, wrap anything else in a one-element array. -/
def normStep (result : List (String × List JVal)) (p : String × JVal) :
    List (String × List JVal) :=
  if truthy p.2 = false then result
  else
    match p.2 with
    | JVal.jarr es => result ++ [(p.1, es)]
    | v => result ++ [(p.1, [v])]

/-- normalizedRounds from the PatientSOAP component: a nullish input gives
the empty map, a legacy single round becomes the map from "1" to the
one-element list holding the input itself, and otherwise each entry is
normalized by normStep. -/
def normalizedRounds : Option (List (String × JVal)) → List (String × List JVal)
  | none => []
  | some o =>
    if isSingle o then [("1", [JVal.jobj o])]
    else o.foldl normStep []

/-- Lookup in the resulting rounds map. -/
def lookupRound (m : List (String × List JVal)) (k : String) :
    Option (List JVal) :=
  (m.find? (fun p => p.1 == k)).map Prod.snd

/-- The value list a truthy entry contributes, none for a falsy one. -/
def entryFor : JVal → Option (List JVal)
  | JVal.jundef => none
  | JVal.jnull => none
  | JVal.jstr s => if s == "" then none else some [JVal.jstr s]
  | JVal.jobj e => some [JVal.jobj e]
  | JVal.jarr es => some es

/-- The normalized entry list as a filterMap. -/
def entryLists (o : List (String × JVal)) : List (String × List JVal) :=
  o.filterMap (fun p => (entryFor p.2).map (fun e => (p.1, e)))

lemma normStep_eq (result : List (String × List JVal)) (p : String × JVal) :
    normStep result p =
      match (entryFor p.2).map (fun e => (p.1, e)) with
      | none => result
      | some q => result ++ [q] := by
  obtain ⟨k, v⟩ := p
  cases v with
  | jundef => rfl
  | jnull => rfl
  | jstr s =>
    by_cases h : (s == "") = true
    · unfold normStep entryFor
      simp [truthy, h]
    · unfold normStep entryFor
      simp [truthy, h]
  | jobj e => rfl
  | jarr es => rfl

lemma normFold_eq (o : List (String × JVal)) (acc : List (String × List JVal)) :
    o.foldl normStep acc = acc ++ entryLists o := by
  induction o generalizing acc with
  | nil => simp [entryLists]
  | cons p rest ih =>
    show List.foldl normStep (normStep acc p) rest = acc ++ entryLists (p :: rest)
    rw [ih (normStep acc p), normStep_eq acc p]
    unfold entryLists
    rw [List.filterMap_cons]
    cases h : (entryFor p.2).map (fun e => (p.1, e)) with
    | none => simp
    | some q => simp

lemma lookupRound_entryLists_not_mem (o : List (String × JVal)) (k : String)
    (hk : k ∉ o.map Prod.fst) : lookupRound (entryLists o) k = none := by
  induction o with
  | nil => rfl
  | cons p rest ih =>
    have hk1 : p.1 ≠ k := by
      intro hc
      exact hk (by simp [hc])
    have hk2 : k ∉ rest.map Prod.fst := by
      intro hc
      exact hk (by simp [hc])
    unfold entryLists at ih ⊢
    rw [List.filterMap_cons]
    cases h : (entryFor p.2).map (fun e => (p.1, e)) with
    | none => exact ih hk2
    | some q =>
      have hq1 : q.1 = p.1 := by
        rcases Option.map_eq_some'.mp h with ⟨e, _, rfl⟩
        rfl
      unfold lookupRound
      rw [List.find?_cons_of_neg]
      · exact ih hk2
      · simp [hq1, hk1]

lemma lookupRound_entryLists (o : List (String × JVal))
    (hwf : (o.map Prod.fst).Nodup) (k : String) (v : JVal)
    (hmem : (k, v) ∈ o) : lookupRound (entryLists o) k = entryFor v := by
  induction o with
  | nil => cases hmem
  | cons p rest ih =>
    have hwf2 : (rest.map Prod.fst).Nodup := (List.nodup_cons.mp hwf).2
    have hnd : p.1 ∉ rest.map Prod.fst := (List.nodup_cons.mp hwf).1
    rcases List.mem_cons.mp hmem with rfl | hmem2
    · unfold entryLists
      rw [List.filterMap_cons]
      cases h : (entryFor v).map (fun e => ((k, v).1, e)) with
      | none =>
        have hnone : entryFor v = none := by
          cases he : entryFor v
          · rfl
          · rw [he] at h
            simp at h
        rw [hnone]
        exact lookupRound_entryLists_not_mem rest k hnd
      | some q =>
        rcases Option.map_eq_some'.mp h with ⟨e, he, rfl⟩
        unfold lookupRound
        rw [List.find?_cons_of_pos]
        · rw [he]
          rfl
        · simp
    · have hk : p.1 ≠ k := by
        intro hc
        exact hnd (by
          rw [hc]
          exact List.mem_map_of_mem Prod.fst hmem2)
      unfold entryLists at ih ⊢
      rw [List.filterMap_cons]
      cases h : (entryFor p.2).map (fun e => (p.1, e)) with
      | none => exact ih hwf2 hmem2
      | some q =>
        have hq1 : q.1 = p.1 := by
          rcases Option.map_eq_some'.mp h with ⟨e, _, rfl⟩
          rfl
        unfold lookupRound
        rw [List.find?_cons_of_neg]
        · exact ih hwf2 hmem2
        · simp [hq1, hk]

/-- C1: normalizedRounds maps a nullish input to the empty map; an input
with a defined SOAP field and no all-digit key becomes the single-round
map from "1" to the input itself; otherwise, per input key, an array value
is kept as is, an object value is wrapped in a one-element list, and
null/undefined values are dropped. -/
theorem normalizedRounds_spec (o : List (String × JVal))
    (hwf : (o.map Prod.fst).Nodup) :
    normalizedRounds none = [] ∧
    (isSingle o = true → normalizedRounds (some o) = [("1", [JVal.jobj o])]) ∧
    (isSingle o = false → ∀ k v, (k, v) ∈ o →
      (∀ es, v = JVal.jarr es →
        lookupRound (normalizedRounds (some o)) k = some es) ∧
      (∀ e, v = JVal.jobj e →
        lookupRound (normalizedRounds (some o)) k = some [JVal.jobj e]) ∧
      ((v = JVal.jnull ∨ v = JVal.jundef) →
        lookupRound (normalizedRounds (some o)) k = none)) := by
  refine ⟨rfl, ?_, ?_⟩
  · intro hs
    show (if isSingle o then [("1", [JVal.jobj o])] else o.foldl normStep []) =
      [("1", [JVal.jobj o])]
    rw [if_pos hs]
  · intro hs k v hmem
    have hform : normalizedRounds (some o) = entryLists o := by
      show (if isSingle o then [("1", [JVal.jobj o])] else o.foldl normStep []) =
        entryLists o
      rw [if_neg (by simp [hs])]
      exact (normFold_eq o []).trans (List.nil_append _)
    have hlook := lookupRound_entryLists o hwf k v hmem
    rw [hform, hlook]
    refine ⟨?_, ?_, ?_⟩
    · intro es hv
      rw [hv]
      rfl
    · intro e hv
      rw [hv]
      rfl
    · intro hv
      rcases hv with rfl | rfl <;> rfl

/-- A legacy single-round input: one defined SOAP field, no digit key. -/
def legacyRounds : List (String × JVal) :=
  [("subjective", JVal.jstr "s"), ("role", JVal.jstr "physician")]

/-- A multi-round input with an array round, a wrapped-object round and a
dropped null round. -/
def multiRounds : List (String × JVal) :=
  [("1", JVal.jarr [JVal.jobj [("subjective", JVal.jstr "a")]]),
   ("2", JVal.jobj [("objective", JVal.jstr "b")]),
   ("3", JVal.jnull)]

/-- Witness instantiating C1 on concrete legacy and multi-round inputs. -/
theorem normalizedRounds_spec_witness :
    normalizedRounds (some legacyRounds) = [("1", [JVal.jobj legacyRounds])] ∧
    lookupRound (normalizedRounds (some multiRounds)) "2" =
      some [JVal.jobj [("objective", JVal.jstr "b")]] ∧
    lookupRound (normalizedRounds (some multiRounds)) "3" = none := by
  refine ⟨?_, ?_, ?_⟩
  · exact (normalizedRounds_spec legacyRounds (by decide)).2.1 (by decide)
  · exact ((normalizedRounds_spec multiRounds (by decide)).2.2 (by decide) "2"
      (JVal.jobj [("objective", JVal.jstr "b")])
      (List.mem_cons_of_mem _ (List.mem_cons_self _ _))).2.1
      [("objective", JVal.jstr "b")] rfl
  · exact ((normalizedRounds_spec multiRounds (by decide)).2.2 (by decide) "3"
      JVal.jnull
      (List.mem_cons_of_mem _ (List.mem_cons_of_mem _ (List.mem_cons_self _ _)))).2.2
      (Or.inl rfl)

/-! ## Line-delimited stream consumption (store module, startWritingTask) -/

/-- JS String.prototype.split on the newline character, over the decoded
characters of a chunk. -/
def splitNL : List Char → List (List Char)
  | [] => [[]]
  | c :: rest =>
    if c = '\n' then [] :: splitNL rest
    else
      match splitNL rest with
      | [] => [[c]]
      | l :: ls => (c :: l) :: ls

/-- The non-blank trimmed lines of one decoded chunk, in order; these are
exactly the strings the loop hands to JSON.parse and, as parsed messages,
to addMessage. -/
def jsLines (text : List Char) : List (List Char) :=
  ((splitNL text).map trimChars).filter (fun p => !p.isEmpty)

/-- The inner for loop over the parts of one chunk: trim each part, skip
blank parts, and append every other part to the trace of JSON.parse and
addMessage inputs. -/
def processParts (parts : List (List Char)) (trace : List (List Char)) :
    List (List Char) :=
  match parts with
  | [] => trace
  | part :: rest =>
    if (trimChars part).isEmpty then processParts rest trace
    else processParts rest (trace ++ [trimChars part])

/-- The for-await loop over the chunks read from the response body: each
chunk is decoded and split on newlines on its own, with no carry-over of a
partial line to the next chunk. -/
def consumeLoop (chunks : List (List Char)) (trace : List (List Char)) :
    List (List Char) :=
  match chunks with
  | [] => trace
  | chunk :: rest => consumeLoop rest (processParts (splitNL chunk) trace)

/-- The sequence of line strings startWritingTask feeds to JSON.parse and
addMessage for a given sequence of decoded chunks. -/
def consumeTrace (chunks : List (List Char)) : List (List Char) :=
  consumeLoop chunks []

/-- Modelled from the claim wording, for comparison with the code: the
non-blank newline-separated lines of the stream as a whole, taken across
chunk boundaries by splitting the concatenation of every chunk. -/
def specStreamLines (chunks : List (List Char)) : List (List Char) :=
  jsLines chunks.flatten

lemma processParts_eq (parts : List (List Char)) (trace : List (List Char)) :
    processParts parts trace =
      trace ++ (parts.map trimChars).filter (fun p => !p.isEmpty) := by
  induction parts generalizing trace with
  | nil => simp [processParts]
  | cons part rest ih =>
    show (if (trimChars part).isEmpty then processParts rest trace
      else processParts rest (trace ++ [trimChars part])) = _
    by_cases h : (trimChars part).isEmpty = true
    · rw [if_pos h, ih]
      simp [List.filter_cons, h]
    · rw [if_neg h, ih]
      simp [List.filter_cons, h]

lemma consumeLoop_eq (chunks : List (List Char)) (trace : List (List Char)) :
    consumeLoop chunks trace = trace ++ chunks.flatMap jsLines := by
  induction chunks generalizing trace with
  | nil => simp [consumeLoop]
  | cons c rest ih =>
    show consumeLoop rest (processParts (splitNL c) trace) = _
    rw [ih, processParts_eq]
    show trace ++ jsLines c ++ rest.flatMap jsLines = _
    rw [List.append_assoc, List.flatMap_cons]

lemma splitNL_ne_nil (t : List Char) : splitNL t ≠ [] := by
  cases t with
  | nil => simp [splitNL]
  | cons c rest =>
    show (if c = '\n' then [] :: splitNL rest
      else match splitNL rest with
        | [] => [[c]]
        | l :: ls => (c :: l) :: ls) ≠ []
    by_cases h : c = '\n'
    · rw [if_pos h]
      simp
    · rw [if_neg h]
      cases hs : splitNL rest with
      | nil => simp
      | cons l ls => simp

lemma splitNL_endNL (xs : List Char) (h : xs.getLast? = some '\n') :
    (∀ ys, splitNL (xs ++ ys) = (splitNL xs).dropLast ++ splitNL ys) ∧
    2 ≤ (splitNL xs).length ∧ (splitNL xs).getLast? = some [] := by
  induction xs with
  | nil => cases h
  | cons x xs2 ih =>
    cases hxs : xs2 with
    | nil =>
      subst hxs
      have hx : x = '\n' := by
        simpa using h
      subst hx
      refine ⟨fun ys => ?_, by decide, by decide⟩
      show [] :: splitNL ([] ++ ys) = _
      simp [splitNL]
    | cons y ys2 =>
      rw [hxs] at ih h
      have hlast : (y :: ys2).getLast? = some '\n' := by
        rw [List.getLast?_cons_cons] at h
        exact h
      obtain ⟨hap, hlen, hget⟩ := ih hlast
      by_cases hx : x = '\n'
      · subst hx
        obtain ⟨l, ls, hs⟩ : ∃ l ls, splitNL (y :: ys2) = l :: ls := by
          cases hs : splitNL (y :: ys2) with
          | nil => exact absurd hs (splitNL_ne_nil _)
          | cons l ls => exact ⟨l, ls, rfl⟩
        have hred : splitNL ('\n' :: y :: ys2) = [] :: splitNL (y :: ys2) := rfl
        refine ⟨fun zs => ?_, ?_, ?_⟩
        · show [] :: splitNL ((y :: ys2) ++ zs) =
            (splitNL ('\n' :: y :: ys2)).dropLast ++ splitNL zs
          rw [hred, hs, hap zs, hs]
          rfl
        · show 2 ≤ ([] :: splitNL (y :: ys2)).length
          simp only [List.length_cons]
          omega
        · show ([] :: splitNL (y :: ys2)).getLast? = some []
          rw [hs] at hget ⊢
          rw [List.getLast?_cons_cons]
          exact hget
      · obtain ⟨l, l2, ls, hs⟩ : ∃ l l2 ls, splitNL (y :: ys2) = l :: l2 :: ls := by
          cases hs : splitNL (y :: ys2) with
          | nil => exact absurd hs (splitNL_ne_nil _)
          | cons l rest2 =>
            cases hr : rest2 with
            | nil =>
              rw [hs, hr] at hlen
              simp at hlen
            | cons l2 ls =>
              subst hr
              exact ⟨l, l2, ls, rfl⟩
        have hsx : splitNL (x :: y :: ys2) = (x :: l) :: l2 :: ls := by
          show (if x = '\n' then [] :: splitNL (y :: ys2)
            else match splitNL (y :: ys2) with
              | [] => [[x]]
              | l :: ls => (x :: l) :: ls) = _
          rw [if_neg hx, hs]
        refine ⟨fun zs => ?_, ?_, ?_⟩
        · have hsxz : splitNL (x :: ((y :: ys2) ++ zs)) =
              (x :: l) :: (List.dropLast (l2 :: ls) ++ splitNL zs) := by
            show (if x = '\n' then [] :: splitNL ((y :: ys2) ++ zs)
              else match splitNL ((y :: ys2) ++ zs) with
                | [] => [[x]]
                | l :: ls => (x :: l) :: ls) = _
            rw [if_neg hx, hap zs, hs]
            rfl
          show splitNL (x :: ((y :: ys2) ++ zs)) = _
          rw [hsxz, hsx]
          rfl
        · rw [hsx]
          simp only [List.length_cons]
          omega
        · rw [hsx]
          rw [hs] at hget
          rw [List.getLast?_cons_cons] at hget ⊢
          exact hget

lemma jsLines_append (xs ys : List Char) (h : xs.getLast? = some '\n') :
    jsLines (xs ++ ys) = jsLines xs ++ jsLines ys := by
  obtain ⟨hap, _, hget⟩ := splitNL_endNL xs h
  have hne := splitNL_ne_nil xs
  have hsplit : splitNL xs = (splitNL xs).dropLast ++ [[]] := by
    have hdg := List.dropLast_append_getLast hne
    have hgl : (splitNL xs).getLast hne = [] := by
      rw [List.getLast?_eq_getLast _ hne] at hget
      exact Option.some_injective _ hget
    rw [hgl] at hdg
    exact hdg.symm
  have htriv : (List.map trimChars [[]]).filter (fun p => !p.isEmpty) = [] := rfl
  unfold jsLines
  rw [hap ys]
  rw [List.map_append, List.filter_append]
  conv_rhs => rw [hsplit]
  rw [List.map_append, List.filter_append, htriv, List.append_nil]

/-- C2 counterexample: a line that spans the boundary between the chunks
ab and c-newline is handed to JSON.parse as the two fragments ab and c,
not as the single stream line abc the claim describes, because each chunk
is split on newlines with no carry-over buffer. -/
theorem startWritingTask_boundary_counterexample :
    consumeTrace [['a', 'b'], ['c', '\n']] = [['a', 'b'], ['c']] ∧
    specStreamLines [['a', 'b'], ['c', '\n']] = [['a', 'b', 'c']] ∧
    consumeTrace [['a', 'b'], ['c', '\n']] ≠
      specStreamLines [['a', 'b'], ['c', '\n']] := by
  refine ⟨rfl, rfl, ?_⟩
  decide

/-- C2 amended: whenever every chunk ends on a line boundary (it is empty
or its last character is a newline), each non-blank newline-separated line
of the stream is handed to JSON.parse and addMessage exactly once, in
stream order; a line spanning a chunk boundary is instead processed as
separate fragments, one per chunk. -/
theorem startWritingTask_lines_in_order (chunks : List (List Char))
    (h : ∀ c ∈ chunks, c = [] ∨ c.getLast? = some '\n') :
    consumeTrace chunks = specStreamLines chunks := by
  unfold consumeTrace
  rw [consumeLoop_eq chunks []]
  rw [List.nil_append]
  induction chunks with
  | nil => rfl
  | cons c rest ih =>
    have hrest := ih (fun d hd => h d (List.mem_cons_of_mem c hd))
    rcases h c (List.mem_cons_self c rest) with rfl | hc
    · show jsLines [] ++ rest.flatMap jsLines =
        jsLines (List.flatten ([] :: rest))
      rw [show jsLines [] = [] from rfl, List.nil_append, hrest]
      rfl
    · show jsLines c ++ rest.flatMap jsLines = jsLines (List.flatten (c :: rest))
      rw [List.flatten_cons, jsLines_append c rest.flatten hc, hrest]
      rfl

/-- Witness instantiating the amended C2 on chunks that end with newlines. -/
theorem startWritingTask_lines_in_order_witness :
    consumeTrace [['a', '\n'], ['b', '\n']] =
      specStreamLines [['a', '\n'], ['b', '\n']] := by
  exact startWritingTask_lines_in_order [['a', '\n'], ['b', '\n']]
    (by intro c hc; fin_cases hc <;> exact Or.inr rfl)

end ClinicalUnit
